import Mathlib

/-!
Verification of the natural-language specification of the
Post-Quantum-Cryptography repository (file `kyber.py`) against a shallow
embedding of its code in Lean 4.

The repository's single source file is a thin Python wrapper (`KyberKEM`)
around the external `liboqs` library (`oqs.KeyEncapsulation`).  The wrapper
is embedded faithfully below; the external library object is modelled as an
abstract record of (total, deterministic) functions `OqsKem`, with its
internal mutable state threaded explicitly (the liboqs object stores the
secret key produced by `generate_keypair` and uses it in `decap_secret`)
and every randomness draw made an explicit parameter.  Contracts satisfied
by the external library (round-trip correctness, output sizes, implicit
rejection) appear as explicit hypotheses on the `OqsKem` record, since that
library is not part of this repository.

The spec also describes a cryptographic core (NTT and friends) that the
repository does not contain; where a claim is decided only by that core it
is modelled from the spec, as marked in the doc comments.
-/

namespace PQC

/-- Byte strings are modelled as lists of naturals (one per byte). -/
abbrev Bytes := List Nat

/-- Embedding of the `KyberParameters` dataclass of `kyber.py`. -/
structure KyberParameters where
  name : String
  security_level : Nat
  public_key_bytes : Nat
  secret_key_bytes : Nat
  ciphertext_bytes : Nat
  shared_secret_bytes : Nat
deriving DecidableEq, Repr

/-- The `KYBER_PARAMS["Kyber512"]` entry of `kyber.py`. -/
def kyber512Params : KyberParameters :=
  { name := "Kyber512", security_level := 128, public_key_bytes := 800,
    secret_key_bytes := 1632, ciphertext_bytes := 768, shared_secret_bytes := 32 }

/-- The `KYBER_PARAMS["Kyber768"]` entry of `kyber.py`. -/
def kyber768Params : KyberParameters :=
  { name := "Kyber768", security_level := 192, public_key_bytes := 1184,
    secret_key_bytes := 2400, ciphertext_bytes := 1088, shared_secret_bytes := 32 }

/-- The `KYBER_PARAMS["Kyber1024"]` entry of `kyber.py`. -/
def kyber1024Params : KyberParameters :=
  { name := "Kyber1024", security_level := 256, public_key_bytes := 1568,
    secret_key_bytes := 3168, ciphertext_bytes := 1568, shared_secret_bytes := 32 }

/-- The `KYBER_PARAMS` dictionary of `kyber.py`, as a lookup function. -/
def KYBER_PARAMS (v : String) : Option KyberParameters :=
  if v = "Kyber512" then some kyber512Params
  else if v = "Kyber768" then some kyber768Params
  else if v = "Kyber1024" then some kyber1024Params
  else none

/-- Abstract model of the external `oqs.KeyEncapsulation` object.  `σ` is its
internal state (it stores the secret key generated by `generate_keypair`);
each randomness draw is an explicit `Nat` parameter.  The functions are
total and deterministic, as the corresponding liboqs operations are;
`claimedNistLevel` and `version` model the `details` dictionary entries read
by `get_algorithm_info`. -/
structure OqsKem (σ : Type) where
  genKeypair : Nat → σ → Bytes × σ
  exportSecretKey : σ → Bytes
  encapSecret : Nat → Bytes → Bytes × Bytes
  decapSecret : σ → Bytes → Bytes
  claimedNistLevel : Option Nat
  version : Option String

/-- The error kinds named by the spec (§7) plus the `RuntimeError` raised by
`__init__` when liboqs is absent.  The wrapper's operations are given
`Except KemError` result types so that "fails with …" claims are statable;
the source methods `encapsulate`/`decapsulate` contain no `raise`, which is
reflected in the embedding always returning `.ok`. -/
inductive KemError where
  | invalidVariant
  | invalidPublicKeyLength
  | invalidCiphertextLength
  | invalidSecretKeyLength
  | decodeError
  | runtimeUnavailable
deriving DecidableEq, Repr

/-- Embedding of the `KyberKEM` class: the fields set by `__init__`
(`self.variant`, `self.params`, `self.kem`) plus the liboqs object's
internal state. -/
structure KyberKEM (σ : Type) where
  variant : String
  params : KyberParameters
  kem : OqsKem σ
  kemState : σ

/-- Embedding of `KyberKEM.__init__`: reject unknown variants first
(`ValueError`, the spec's `InvalidVariant`), then fail with `RuntimeError`
when liboqs is unavailable, else construct the instance with the variant's
parameter record and a freshly constructed liboqs object (`mkKem` models the
external constructor `oqs.KeyEncapsulation(variant)`). -/
def kyberInit {σ : Type} (oqsAvailable : Bool) (mkKem : String → OqsKem σ × σ)
    (variant : String) : Except KemError (KyberKEM σ) :=
  match KYBER_PARAMS variant with
  | none => .error .invalidVariant
  | some p =>
    if oqsAvailable then
      let ks := mkKem variant
      .ok { variant := variant, params := p, kem := ks.1, kemState := ks.2 }
    else .error .runtimeUnavailable

/-- Embedding of `KyberKEM.generate_keypair`: call the liboqs object's
`generate_keypair` (which updates its internal state), export the secret
key, and return both together with the updated instance. -/
def KyberKEM.generate_keypair {σ : Type} (k : KyberKEM σ) (r : Nat) :
    (Bytes × Bytes) × KyberKEM σ :=
  let ps := k.kem.genKeypair r k.kemState
  let secret_key := k.kem.exportSecretKey ps.2
  ((ps.1, secret_key), { k with kemState := ps.2 })

/-- Embedding of `KyberKEM.encapsulate`: the method performs no validation
and raises nothing; it passes `public_key` directly to the liboqs object's
`encap_secret` and returns its `(ciphertext, shared_secret)` pair.  No
attribute of `self` is written, so the instance is returned unchanged. -/
def KyberKEM.encapsulate {σ : Type} (k : KyberKEM σ) (r : Nat)
    (public_key : Bytes) : Except KemError (Bytes × Bytes) × KyberKEM σ :=
  (.ok (k.kem.encapSecret r public_key), k)

/-- Embedding of `KyberKEM.decapsulate`: the method performs no validation
and raises nothing; the `secret_key` argument is never used — the call
`self.kem.decap_secret(ciphertext)` uses the secret key held in the liboqs
object's internal state.  No attribute of `self` is written. -/
def KyberKEM.decapsulate {σ : Type} (k : KyberKEM σ) (ciphertext : Bytes)
    (secret_key : Bytes) : Except KemError Bytes × KyberKEM σ :=
  (.ok (k.kem.decapSecret k.kemState ciphertext), k)

/-- The dictionary returned by `KyberKEM.get_algorithm_info`. -/
structure AlgorithmInfo where
  algorithm : String
  variant : String
  nist_level : Nat
  public_key_size : Nat
  secret_key_size : Nat
  ciphertext_size : Nat
  shared_secret_size : Nat
  claimed_nist_level : Option Nat
  version : String
deriving DecidableEq, Repr

/-- Embedding of `KyberKEM.get_algorithm_info`: a read-only method built
from `self.variant`, `self.params` and the liboqs `details` entries. -/
def KyberKEM.get_algorithm_info {σ : Type} (k : KyberKEM σ) :
    AlgorithmInfo × KyberKEM σ :=
  ({ algorithm := "ML-KEM (CRYSTALS-Kyber)"
   , variant := k.variant
   , nist_level := k.params.security_level
   , public_key_size := k.params.public_key_bytes
   , secret_key_size := k.params.secret_key_bytes
   , ciphertext_size := k.params.ciphertext_bytes
   , shared_secret_size := k.params.shared_secret_bytes
   , claimed_nist_level := k.kem.claimedNistLevel
   , version := k.kem.version.getD "unknown" }, k)

/-!
Spec-modelled NTT.  The repository contains no NTT (its cryptographic core
is the external liboqs library), so the transform is modelled from §4.2 of
the spec: a butterfly network over length-256 polynomials mod q = 3329,
using a fixed table of powers of the primitive root 17 in bit-reversed
order, with the incomplete (degree-2 base block) structure — 127 butterfly
twiddles arranged in 7 layers — and the inverse transform scaling by the
modular inverse of 128.
-/

/-- The Kyber modulus q = 3329. -/
abbrev Q : Nat := 3329

/-- Coefficient field Z_q. -/
abbrev Fq := ZMod Q

instance : Fact (Nat.Prime Q) := ⟨by norm_num⟩

/-- A depth-indexed binary tree of butterfly twiddle factors.  A depth-7
tree carries the 2^7 - 1 = 127 twiddles of the incomplete Kyber NTT; the
leaves are the untouched degree-2 base blocks. -/
inductive ZTree : Nat → Type where
  | leaf : ZTree 0
  | node {d : Nat} (z : Fq) (l r : ZTree d) : ZTree (d + 1)

/-- All twiddles in the tree are nonzero. -/
def ZTree.allNZ : {d : Nat} → ZTree d → Prop
  | _, .leaf => True
  | _, .node z l r => z ≠ 0 ∧ l.allNZ ∧ r.allNZ

/-- One recursive formulation of the forward butterfly network: a node with
twiddle `z` sends the low half `lo` and high half `hi` of the coefficient
block to `lo + z·hi` (the `X^m = z` residue branch) and `lo - z·hi` (the
`X^m = -z` branch), then recurses into each branch; leaves (degree-2
blocks) are left untouched, giving the incomplete NTT of the spec. -/
def fwdT : {d : Nat} → ZTree d → List Fq → List Fq
  | _, .leaf, p => p
  | _, .node z l r, p =>
    fwdT l (List.zipWith (fun a b => a + z * b)
        (p.take (p.length / 2)) (p.drop (p.length / 2))) ++
      fwdT r (List.zipWith (fun a b => a - z * b)
        (p.take (p.length / 2)) (p.drop (p.length / 2)))

/-- The inverse butterfly network (Gentleman–Sande direction), without the
final scaling: each node recombines the two recursively inverted halves
`fa`, `fb` into `fa + fb` and `z⁻¹ · (fa - fb)`, undoing the forward
butterfly up to a factor of 2 per layer. -/
def invT : {d : Nat} → ZTree d → List Fq → List Fq
  | _, .leaf, p => p
  | _, .node z l r, p =>
    List.zipWith (fun x y => x + y)
        (invT l (p.take (p.length / 2))) (invT r (p.drop (p.length / 2))) ++
      List.zipWith (fun x y => z⁻¹ * (x - y))
        (invT l (p.take (p.length / 2))) (invT r (p.drop (p.length / 2)))

/-- Reverse the low 7 bits of a number: the bit-reversed indexing of the
Kyber zeta table. -/
def bitrev7 (n : Nat) : Nat :=
  (List.range 7).foldl (fun acc i => 2 * acc + (n >>> i) % 2) 0

/-- The zeta table: `zeta k = 17 ^ bitrev7 k` mod q, the precomputed powers
of the primitive root 17 in bit-reversed order. -/
def zeta (k : Nat) : Fq := (17 : Fq) ^ bitrev7 k

/-- Build the twiddle tree heap-style: the node at heap index `i` carries
`zeta i`, its children sit at indices `2i` and `2i+1`.  `mkTree 7 1` lays
out exactly the twiddles `zeta 1 … zeta 127` consumed in order by the
standard in-place Kyber NTT loops. -/
def mkTree : (d : Nat) → Nat → ZTree d
  | 0, _ => .leaf
  | d + 1, i => .node (zeta i) (mkTree d (2 * i)) (mkTree d (2 * i + 1))

/-- The twiddle tree of the Kyber forward NTT. -/
def kyberTree : ZTree 7 := mkTree 7 1

/-- Modelled from the spec: the forward NTT on length-256 polynomials
mod q. -/
def ForwardNTT (p : List Fq) : List Fq := fwdT kyberTree p

/-- Modelled from the spec: the inverse NTT — the inverse butterfly network
followed by scaling with the modular inverse of 128. -/
def InverseNTT (p : List Fq) : List Fq :=
  (invT kyberTree p).map (fun x => (128 : Fq)⁻¹ * x)

/-- Recombining the two scaled forward branches by addition recovers the
low half of the block, scaled by an extra factor of 2. -/
lemma invRecomb_fst (z c : Fq) (lo : List Fq) :
    ∀ (hi : List Fq), lo.length = hi.length →
      List.zipWith (fun x y => x + y)
        ((List.zipWith (fun a b => a + z * b) lo hi).map (fun x => c * x))
        ((List.zipWith (fun a b => a - z * b) lo hi).map (fun x => c * x))
      = lo.map (fun x => 2 * c * x) := by
  induction lo with
  | nil => intro hi _; simp
  | cons a lo ih =>
    intro hi h
    cases hi with
    | nil => simp at h
    | cons b hi =>
      have h' : lo.length = hi.length := by simpa using h
      simp only [List.zipWith_cons_cons, List.map_cons]
      rw [ih hi h']
      congr 1
      ring

/-- Recombining the two scaled forward branches by subtraction and a twiddle
inverse recovers the high half of the block, scaled by an extra factor
of 2. -/
lemma invRecomb_snd (z c : Fq) (hz : z ≠ 0) (lo : List Fq) :
    ∀ (hi : List Fq), lo.length = hi.length →
      List.zipWith (fun x y => z⁻¹ * (x - y))
        ((List.zipWith (fun a b => a + z * b) lo hi).map (fun x => c * x))
        ((List.zipWith (fun a b => a - z * b) lo hi).map (fun x => c * x))
      = hi.map (fun x => 2 * c * x) := by
  induction lo with
  | nil =>
    intro hi h
    cases hi with
    | nil => simp
    | cons b hi => simp at h
  | cons a lo ih =>
    intro hi h
    cases hi with
    | nil => simp at h
    | cons b hi =>
      have h' : lo.length = hi.length := by simpa using h
      simp only [List.zipWith_cons_cons, List.map_cons]
      rw [ih hi h']
      congr 1
      have expand : z⁻¹ * (c * (a + z * b) - c * (a - z * b))
          = z⁻¹ * z * (2 * c * b) := by ring
      rw [expand, inv_mul_cancel₀ hz, one_mul]

/-- The forward butterfly network preserves the length of blocks whose
length is a multiple of 2^depth. -/
lemma fwdT_length {d : Nat} (t : ZTree d) :
    ∀ (m : Nat) (p : List Fq), p.length = 2 ^ d * m →
      (fwdT t p).length = p.length := by
  induction t with
  | leaf => intro m p _; rfl
  | node z l r ihl ihr =>
    rename_i d
    intro m p h
    have hp2 : p.length = 2 * (2 ^ d * m) := by rw [h, pow_succ]; ring
    have hn : p.length / 2 = 2 ^ d * m := by omega
    have hlo : (p.take (p.length / 2)).length = 2 ^ d * m := by
      rw [List.length_take]; omega
    have hhi : (p.drop (p.length / 2)).length = 2 ^ d * m := by
      rw [List.length_drop]; omega
    have hA : (List.zipWith (fun a b => a + z * b)
        (p.take (p.length / 2)) (p.drop (p.length / 2))).length = 2 ^ d * m := by
      rw [List.length_zipWith, hlo, hhi]; omega
    have hB : (List.zipWith (fun a b => a - z * b)
        (p.take (p.length / 2)) (p.drop (p.length / 2))).length = 2 ^ d * m := by
      rw [List.length_zipWith, hlo, hhi]; omega
    simp only [fwdT, List.length_append]
    rw [ihl m _ hA, ihr m _ hB, hA, hB]
    omega

/-- Inversion up to scaling: the inverse butterfly network applied to the
forward butterfly network multiplies every coefficient by 2^depth, provided
all twiddles are nonzero and the block length is a multiple of 2^depth. -/
lemma invT_fwdT {d : Nat} (t : ZTree d) :
    t.allNZ → ∀ (m : Nat) (p : List Fq), p.length = 2 ^ d * m →
      invT t (fwdT t p) = p.map (fun x => (2 : Fq) ^ d * x) := by
  induction t with
  | leaf => intro _ m p _; simp [invT, fwdT]
  | node z l r ihl ihr =>
    rename_i d
    intro ht m p h
    obtain ⟨hz, hl, hr⟩ := ht
    have hp2 : p.length = 2 * (2 ^ d * m) := by rw [h, pow_succ]; ring
    have hn : p.length / 2 = 2 ^ d * m := by omega
    have hlo : (p.take (p.length / 2)).length = 2 ^ d * m := by
      rw [List.length_take]; omega
    have hhi : (p.drop (p.length / 2)).length = 2 ^ d * m := by
      rw [List.length_drop]; omega
    have hA : (List.zipWith (fun a b => a + z * b)
        (p.take (p.length / 2)) (p.drop (p.length / 2))).length = 2 ^ d * m := by
      rw [List.length_zipWith, hlo, hhi]; omega
    have hB : (List.zipWith (fun a b => a - z * b)
        (p.take (p.length / 2)) (p.drop (p.length / 2))).length = 2 ^ d * m := by
      rw [List.length_zipWith, hlo, hhi]; omega
    have hX : (fwdT l (List.zipWith (fun a b => a + z * b)
        (p.take (p.length / 2)) (p.drop (p.length / 2)))).length = 2 ^ d * m := by
      rw [fwdT_length l m _ hA]; exact hA
    have hY : (fwdT r (List.zipWith (fun a b => a - z * b)
        (p.take (p.length / 2)) (p.drop (p.length / 2)))).length = 2 ^ d * m := by
      rw [fwdT_length r m _ hB]; exact hB
    simp only [fwdT, invT]
    have hhalf : (fwdT l (List.zipWith (fun a b => a + z * b)
          (p.take (p.length / 2)) (p.drop (p.length / 2))) ++
        fwdT r (List.zipWith (fun a b => a - z * b)
          (p.take (p.length / 2)) (p.drop (p.length / 2)))).length / 2
        = (fwdT l (List.zipWith (fun a b => a + z * b)
          (p.take (p.length / 2)) (p.drop (p.length / 2)))).length := by
      rw [List.length_append, hX, hY]; omega
    rw [hhalf, List.take_left, List.drop_left,
        ihl hl m _ hA, ihr hr m _ hB,
        invRecomb_fst z ((2 : Fq) ^ d) _ _ (by rw [hlo, hhi]),
        invRecomb_snd z ((2 : Fq) ^ d) hz _ _ (by rw [hlo, hhi]),
        ← List.map_append, List.take_append_drop]
    refine congrArg (fun f => List.map f p) (funext fun x => ?_)
    ring

/-- Every twiddle in a heap-built tree is a power of 17, hence nonzero in
the field Z_q. -/
lemma mkTree_allNZ : ∀ (d i : Nat), (mkTree d i).allNZ
  | 0, _ => trivial
  | d + 1, i =>
    ⟨pow_ne_zero _ (by decide), mkTree_allNZ d (2 * i), mkTree_allNZ d (2 * i + 1)⟩

/-!
Contracts of the external liboqs library and concrete model instances used
for witnesses and counterexamples.
-/

/-- Round-trip contract of the external liboqs KEM: after a keypair is
generated (updating the object's internal state), decapsulating an
encapsulation under the returned public key yields the encapsulated shared
secret, for every randomness draw. -/
def OqsRoundTrip {σ : Type} (o : OqsKem σ) : Prop :=
  ∀ (r : Nat) (st : σ) (r2 : Nat),
    o.decapSecret (o.genKeypair r st).2 (o.encapSecret r2 (o.genKeypair r st).1).1
      = (o.encapSecret r2 (o.genKeypair r st).1).2

/-- Output-size contract of the external liboqs KEM for a parameter set:
generated public keys, exported secret keys, ciphertexts and shared secrets
have the fixed byte sizes of that set. -/
def OqsSized {σ : Type} (o : OqsKem σ) (p : KyberParameters) : Prop :=
  (∀ (r : Nat) (st : σ), (o.genKeypair r st).1.length = p.public_key_bytes) ∧
  (∀ st : σ, (o.exportSecretKey st).length = p.secret_key_bytes) ∧
  (∀ (r : Nat) (pk : Bytes), pk.length = p.public_key_bytes →
    (o.encapSecret r pk).1.length = p.ciphertext_bytes ∧
    (o.encapSecret r pk).2.length = p.shared_secret_bytes) ∧
  (∀ (st : σ) (ct : Bytes), ct.length = p.ciphertext_bytes →
    (o.decapSecret st ct).length = p.shared_secret_bytes)

/-- Tampering model: flip bit `j` of byte `i` of a ciphertext. -/
def flipBit (ct : Bytes) (i j : Nat) : Bytes :=
  ct.set i (Nat.xor (ct.getD i 0) (2 ^ j))

/-- A small concrete model standing in for the external liboqs object in
closed witnesses and counterexamples: the state records the keypair draw,
encapsulation prepends the draw to the public key and uses the result as
both ciphertext and shared secret, and decapsulation returns the
ciphertext.  It satisfies the round-trip contract. -/
def demoOqs : OqsKem Nat :=
  { genKeypair := fun r st => ([r % 256], r)
  , exportSecretKey := fun st => [st % 256]
  , encapSecret := fun r pk => (r % 256 :: pk, r % 256 :: pk)
  , decapSecret := fun _ ct => ct
  , claimedNistLevel := some 3
  , version := some "model" }

/-- A concrete wrapper instance over `demoOqs` for the Kyber768 variant. -/
def demoKEM : KyberKEM Nat :=
  { variant := "Kyber768", params := kyber768Params, kem := demoOqs, kemState := 0 }

/-- A concrete model of the external liboqs object whose outputs have the
Kyber512 table sizes, used to witness the size contract. -/
def sizedOqs : OqsKem Unit :=
  { genKeypair := fun _ _ => (List.replicate 800 0, ())
  , exportSecretKey := fun _ => List.replicate 1632 0
  , encapSecret := fun _ _ => (List.replicate 768 0, List.replicate 32 0)
  , decapSecret := fun _ _ => List.replicate 32 0
  , claimedNistLevel := some 1
  , version := some "model" }

/-- A concrete wrapper instance over `sizedOqs` for the Kyber512 variant. -/
def sizedKEM : KyberKEM Unit :=
  { variant := "Kyber512", params := kyber512Params, kem := sizedOqs, kemState := () }

/-!
The claims.
-/

/-- C1: for every KEM instance whose underlying liboqs object satisfies the
round-trip contract, every keypair returned by `generate_keypair` and every
random draw, if `encapsulate(pk)` returns `(ciphertext, shared_secret)`
then `decapsulate(ciphertext, sk)` returns that same shared secret
(whatever byte string is passed as `sk`, since the code uses the secret key
held in the liboqs object's state). -/
theorem C1_roundtrip {σ : Type} (k : KyberKEM σ) (h : OqsRoundTrip k.kem)
    (r1 r2 : Nat) (sk_arg ct ss : Bytes)
    (henc : ((k.generate_keypair r1).2.encapsulate r2 (k.generate_keypair r1).1.1).1
      = .ok (ct, ss)) :
    ((k.generate_keypair r1).2.decapsulate ct sk_arg).1 = .ok ss := by
  simp only [KyberKEM.generate_keypair, KyberKEM.encapsulate,
    KyberKEM.decapsulate] at henc ⊢
  have hpair := Except.ok.inj henc
  have hct : ct = (k.kem.encapSecret r2 (k.kem.genKeypair r1 k.kemState).1).1 :=
    (congrArg Prod.fst hpair).symm
  have hss : ss = (k.kem.encapSecret r2 (k.kem.genKeypair r1 k.kemState).1).2 :=
    (congrArg Prod.snd hpair).symm
  subst hct
  subst hss
  exact congrArg Except.ok (h r1 k.kemState r2)

/-- Closed witness for C1 at the concrete model instance `demoKEM`. -/
theorem C1_roundtrip_witness :
    OqsRoundTrip demoKEM.kem ∧
      ((demoKEM.generate_keypair 1).2.decapsulate [2, 1] []).1 = .ok [2, 1] :=
  ⟨fun _ _ _ => rfl,
    C1_roundtrip demoKEM (fun _ _ _ => rfl) 1 2 [] [2, 1] [2, 1] rfl⟩

/-- C2 counterexample: on the concrete instance `demoKEM` (Kyber768, so the
valid public-key size is 1184), `encapsulate` applied to the 1-byte public
key `[0]` does not fail with `InvalidPublicKeyLength`; it succeeds,
returning the underlying `encap_secret` output. -/
theorem C2_counterexample :
    ([0] : Bytes).length ≠ demoKEM.params.public_key_bytes ∧
      (demoKEM.encapsulate 0 [0]).1 ≠ .error .invalidPublicKeyLength ∧
      (demoKEM.encapsulate 0 [0]).1 = .ok ([0, 0], [0, 0]) := by
  refine ⟨by decide, ?_, rfl⟩
  simp [KyberKEM.encapsulate]

/-- C2 amended: `encapsulate` performs no validation of the public key's
length — for a public key of any length it raises no error at all and
simply forwards the bytes to the external library's `encap_secret`,
returning its result with the instance unchanged. -/
theorem C2_no_validation {σ : Type} (k : KyberKEM σ) (r : Nat) (public_key : Bytes) :
    k.encapsulate r public_key = (.ok (k.kem.encapSecret r public_key), k) ∧
      ∀ e : KemError, (k.encapsulate r public_key).1 ≠ .error e :=
  ⟨rfl, fun _ h => Except.noConfusion h⟩

/-- C3 counterexample: on the concrete instance `demoKEM` (Kyber768, so the
valid ciphertext size is 1088 and the valid secret-key size is 2400),
`decapsulate` applied to the 1-byte ciphertext `[1]` and the 1-byte secret
key `[2]` fails with neither `InvalidCiphertextLength` nor
`InvalidSecretKeyLength`; it succeeds. -/
theorem C3_counterexample :
    ([1] : Bytes).length ≠ demoKEM.params.ciphertext_bytes ∧
      ([2] : Bytes).length ≠ demoKEM.params.secret_key_bytes ∧
      (demoKEM.decapsulate [1] [2]).1 ≠ .error .invalidCiphertextLength ∧
      (demoKEM.decapsulate [1] [2]).1 ≠ .error .invalidSecretKeyLength ∧
      (demoKEM.decapsulate [1] [2]).1 = .ok [1] := by
  refine ⟨by decide, by decide, ?_, ?_, rfl⟩ <;> simp [KyberKEM.decapsulate]

/-- C3 amended: `decapsulate` performs no validation of the ciphertext or
secret-key lengths — for inputs of any lengths it raises no error and
returns the external library's `decap_secret` applied to the internally
stored state and the given ciphertext, the `secret_key` argument being
ignored. -/
theorem C3_no_validation {σ : Type} (k : KyberKEM σ) (ciphertext secret_key : Bytes) :
    k.decapsulate ciphertext secret_key
        = (.ok (k.kem.decapSecret k.kemState ciphertext), k) ∧
      ∀ e : KemError, (k.decapsulate ciphertext secret_key).1 ≠ .error e :=
  ⟨rfl, fun _ h => Except.noConfusion h⟩

/-- C4: constructing a KEM instance with an unknown variant name fails with
`InvalidVariant` (before the liboqs availability check), and with each of
the three known names (liboqs being available) it succeeds and yields an
instance carrying that variant's parameter set. -/
theorem C4_variant {σ : Type} (mkKem : String → OqsKem σ × σ) (avail : Bool)
    (v : String) (hv : KYBER_PARAMS v = none) :
    kyberInit avail mkKem v = .error .invalidVariant ∧
      kyberInit true mkKem "Kyber512" = .ok
        { variant := "Kyber512", params := kyber512Params,
          kem := (mkKem "Kyber512").1, kemState := (mkKem "Kyber512").2 } ∧
      kyberInit true mkKem "Kyber768" = .ok
        { variant := "Kyber768", params := kyber768Params,
          kem := (mkKem "Kyber768").1, kemState := (mkKem "Kyber768").2 } ∧
      kyberInit true mkKem "Kyber1024" = .ok
        { variant := "Kyber1024", params := kyber1024Params,
          kem := (mkKem "Kyber1024").1, kemState := (mkKem "Kyber1024").2 } := by
  refine ⟨?_, rfl, rfl, rfl⟩
  simp [kyberInit, hv]

/-- Closed witness for C4 at the unknown variant name "Kyber2048". -/
theorem C4_variant_witness :
    KYBER_PARAMS "Kyber2048" = none ∧
      kyberInit false (fun _ => (demoOqs, 0)) "Kyber2048"
        = .error .invalidVariant :=
  ⟨rfl, (C4_variant (fun _ => (demoOqs, 0)) false "Kyber2048" rfl).1⟩

/-- C5: the `KYBER_PARAMS` table carries exactly the byte sizes of the
spec's §6 table, and for every instance whose underlying liboqs object
satisfies the size contract, every successful operation returns byte
strings of those fixed sizes. -/
theorem C5_sizes {σ : Type} (k : KyberKEM σ) (h : OqsSized k.kem k.params)
    (r1 r2 : Nat) (pk ct sk_arg : Bytes)
    (hpk : pk.length = k.params.public_key_bytes)
    (hct : ct.length = k.params.ciphertext_bytes) :
    (kyber512Params.public_key_bytes = 800 ∧ kyber512Params.secret_key_bytes = 1632 ∧
      kyber512Params.ciphertext_bytes = 768 ∧ kyber512Params.shared_secret_bytes = 32) ∧
    (kyber768Params.public_key_bytes = 1184 ∧ kyber768Params.secret_key_bytes = 2400 ∧
      kyber768Params.ciphertext_bytes = 1088 ∧ kyber768Params.shared_secret_bytes = 32) ∧
    (kyber1024Params.public_key_bytes = 1568 ∧ kyber1024Params.secret_key_bytes = 3168 ∧
      kyber1024Params.ciphertext_bytes = 1568 ∧ kyber1024Params.shared_secret_bytes = 32) ∧
    ((k.generate_keypair r1).1.1.length = k.params.public_key_bytes ∧
      (k.generate_keypair r1).1.2.length = k.params.secret_key_bytes) ∧
    (∀ ct2 ss2, (k.encapsulate r2 pk).1 = .ok (ct2, ss2) →
      ct2.length = k.params.ciphertext_bytes ∧
      ss2.length = k.params.shared_secret_bytes) ∧
    (∀ ss2, (k.decapsulate ct sk_arg).1 = .ok ss2 →
      ss2.length = k.params.shared_secret_bytes) := by
  obtain ⟨hgen, hexp, henc, hdec⟩ := h
  refine ⟨⟨rfl, rfl, rfl, rfl⟩, ⟨rfl, rfl, rfl, rfl⟩, ⟨rfl, rfl, rfl, rfl⟩,
    ⟨hgen r1 k.kemState, hexp _⟩, ?_, ?_⟩
  · intro ct2 ss2 he
    have hpair := Except.ok.inj he
    have h1 : ct2 = (k.kem.encapSecret r2 pk).1 := (congrArg Prod.fst hpair).symm
    have h2 : ss2 = (k.kem.encapSecret r2 pk).2 := (congrArg Prod.snd hpair).symm
    subst h1
    subst h2
    exact henc r2 pk hpk
  · intro ss2 he
    have h1 : ss2 = k.kem.decapSecret k.kemState ct := (Except.ok.inj he).symm
    subst h1
    exact hdec k.kemState ct hct

/-- Closed witness for C5 at the concrete size-conforming instance
`sizedKEM`. -/
theorem C5_sizes_witness :
    OqsSized sizedKEM.kem sizedKEM.params ∧
      (sizedKEM.generate_keypair 0).1.1.length = sizedKEM.params.public_key_bytes ∧
      (sizedKEM.generate_keypair 0).1.2.length = sizedKEM.params.secret_key_bytes :=
  have hconf : OqsSized sizedKEM.kem sizedKEM.params :=
    ⟨fun _ _ => List.length_replicate _ _,
      fun _ => List.length_replicate _ _,
      fun _ _ _ => ⟨List.length_replicate _ _, List.length_replicate _ _⟩,
      fun _ _ _ => List.length_replicate _ _⟩
  ⟨hconf,
    (C5_sizes sizedKEM hconf 0 0 (List.replicate 800 0) (List.replicate 768 0) []
        (List.length_replicate _ _) (List.length_replicate _ _)).2.2.2.1⟩

/-- C6: for every instance whose underlying liboqs object returns, on the
given bit-flipped ciphertext, a different secret than on the original
ciphertext (the implicit-rejection contract of the external library),
the wrapper's `decapsulate` on the tampered ciphertext is reproducible —
the same result regardless of which secret-key bytes are passed, the
method being deterministic — never an error, and different from the
shared secret of the untampered ciphertext. -/
theorem C6_implicit_rejection {σ : Type} (k : KyberKEM σ) (ct : Bytes)
    (i j : Nat) (sk1 sk2 : Bytes)
    (hdiff : k.kem.decapSecret k.kemState (flipBit ct i j)
      ≠ k.kem.decapSecret k.kemState ct) :
    (k.decapsulate (flipBit ct i j) sk1).1 = (k.decapsulate (flipBit ct i j) sk2).1 ∧
      (∃ ss, (k.decapsulate (flipBit ct i j) sk1).1 = .ok ss) ∧
      (k.decapsulate (flipBit ct i j) sk1).1 ≠ (k.decapsulate ct sk1).1 := by
  refine ⟨rfl, ⟨_, rfl⟩, ?_⟩
  simp only [KyberKEM.decapsulate]
  intro hcontra
  exact hdiff (Except.ok.inj hcontra)

/-- Closed witness for C6: on `demoKEM`, flipping bit 0 of byte 0 of the
ciphertext `[0]` yields `[1]`, the underlying decapsulation results differ,
and the wrapper's decapsulation of the tampered ciphertext differs from
that of the original. -/
theorem C6_implicit_rejection_witness :
    demoKEM.kem.decapSecret demoKEM.kemState (flipBit [0] 0 0)
        ≠ demoKEM.kem.decapSecret demoKEM.kemState [0] ∧
      (demoKEM.decapsulate (flipBit [0] 0 0) [1, 2]).1
        ≠ (demoKEM.decapsulate [0] [1, 2]).1 :=
  have hdiff : demoKEM.kem.decapSecret demoKEM.kemState (flipBit [0] 0 0)
      ≠ demoKEM.kem.decapSecret demoKEM.kemState [0] := by decide
  ⟨hdiff, (C6_implicit_rejection demoKEM [0] 0 0 [1, 2] [9] hdiff).2.2⟩

/-- C7: `get_algorithm_info` reports exactly the variant name, security
level and byte sizes of the parameter set the instance was constructed
with, and for an instance whose variant/parameter pair comes from the
`KYBER_PARAMS` table that parameter set is one of the three fixed table
rows. -/
theorem C7_algorithm_info {σ : Type} (k : KyberKEM σ)
    (hk : KYBER_PARAMS k.variant = some k.params) :
    (k.get_algorithm_info.1.variant = k.variant ∧
      k.get_algorithm_info.1.nist_level = k.params.security_level ∧
      k.get_algorithm_info.1.public_key_size = k.params.public_key_bytes ∧
      k.get_algorithm_info.1.secret_key_size = k.params.secret_key_bytes ∧
      k.get_algorithm_info.1.ciphertext_size = k.params.ciphertext_bytes ∧
      k.get_algorithm_info.1.shared_secret_size = k.params.shared_secret_bytes) ∧
    (k.params = kyber512Params ∨ k.params = kyber768Params ∨
      k.params = kyber1024Params) := by
  refine ⟨⟨rfl, rfl, rfl, rfl, rfl, rfl⟩, ?_⟩
  simp only [KYBER_PARAMS] at hk
  split at hk
  · exact Or.inl (Option.some.inj hk).symm
  · split at hk
    · exact Or.inr (Or.inl (Option.some.inj hk).symm)
    · split at hk
      · exact Or.inr (Or.inr (Option.some.inj hk).symm)
      · exact Option.noConfusion hk

/-- Closed witness for C7 at the concrete instance `sizedKEM`. -/
theorem C7_algorithm_info_witness :
    KYBER_PARAMS sizedKEM.variant = some sizedKEM.params ∧
      (sizedKEM.params = kyber512Params ∨ sizedKEM.params = kyber768Params ∨
        sizedKEM.params = kyber1024Params) :=
  ⟨rfl, (C7_algorithm_info sizedKEM rfl).2⟩

/-- C8: InverseNTT(ForwardNTT(p)) = p for every length-256 polynomial over
Z_q (modelled from the spec, the repository containing no NTT). -/
theorem C8_ntt_inverse (p : List Fq) (h : p.length = 256) :
    InverseNTT (ForwardNTT p) = p := by
  have h2 : p.length = 2 ^ 7 * 2 := by rw [h]; rfl
  have hinv := invT_fwdT (mkTree 7 1) (mkTree_allNZ 7 1) 2 p h2
  unfold InverseNTT ForwardNTT kyberTree
  rw [hinv, List.map_map]
  have hstep : ((fun x => (128 : Fq)⁻¹ * x) ∘ fun x => (2 : Fq) ^ 7 * x) = id := by
    funext x
    simp only [Function.comp_apply, id_eq]
    have h128 : (2 : Fq) ^ 7 = 128 := by norm_num
    rw [h128, ← mul_assoc, inv_mul_cancel₀ (by decide : (128 : Fq) ≠ 0), one_mul]
  rw [hstep, List.map_id]

/-- Closed witness for C8 at the all-ones polynomial. -/
theorem C8_ntt_inverse_witness :
    (List.replicate 256 (1 : Fq)).length = 256 ∧
      InverseNTT (ForwardNTT (List.replicate 256 (1 : Fq)))
        = List.replicate 256 (1 : Fq) :=
  ⟨List.length_replicate _ _, C8_ntt_inverse _ (List.length_replicate _ _)⟩

/-- C9: the variant and parameter constants chosen at construction are
never mutated — after each of the four operations the instance carries the
same variant and the same parameter record as before the call. -/
theorem C9_params_immutable {σ : Type} (k : KyberKEM σ) (r : Nat)
    (pk ct sk : Bytes) :
    ((k.generate_keypair r).2.variant = k.variant ∧
      (k.generate_keypair r).2.params = k.params) ∧
    ((k.encapsulate r pk).2.variant = k.variant ∧
      (k.encapsulate r pk).2.params = k.params) ∧
    ((k.decapsulate ct sk).2.variant = k.variant ∧
      (k.decapsulate ct sk).2.params = k.params) ∧
    (k.get_algorithm_info.2.variant = k.variant ∧
      k.get_algorithm_info.2.params = k.params) :=
  ⟨⟨rfl, rfl⟩, ⟨rfl, rfl⟩, ⟨rfl, rfl⟩, ⟨rfl, rfl⟩⟩

/-- C10: the result of `decapsulate` does not depend on its `secret_key`
argument — the method ignores it and uses the secret key held in the liboqs
object's internal state, so any two secret-key byte strings give identical
results. -/
theorem C10_secret_key_ignored {σ : Type} (k : KyberKEM σ)
    (ct sk1 sk2 : Bytes) :
    k.decapsulate ct sk1 = k.decapsulate ct sk2 := rfl

end PQC
